import Mathlib

/-!
Verification of the portfolio-diversity calculator.

The development shallowly embeds the repository's core computation:
`utils.get_countries_for_sector`, `utils.validate_portfolio_sectors`,
`calculate_portfolio_weights.calculate_portfolio_weights`,
`calculate_portfolio_weights.analyze_world_coverage` and
`constants.test_world_coverage`.  Python dicts become association lists with
string keys (preserving insertion/iteration order), floats become exact
rationals, and a raised exception becomes an `Except.error` carrying the
exception message.
-/

/-- Association list with string keys: the shallow embedding of a Python
`dict`.  Iteration order is insertion order; every dict the program builds has
unique keys, which theorems assume through `Nodup` hypotheses where it
matters. -/
abbrev Dict (α : Type) := List (String × α)

/-- Keys of a dict, in iteration order (`list(d.keys())`). -/
def keysOf {α : Type} (m : Dict α) : List String := m.map Prod.fst

/-- `d[k] = v` on a Python dict: replace the value in place if the key is
present, append the pair at the end otherwise. -/
def dictInsert {α : Type} (m : Dict α) (k : String) (v : α) : Dict α :=
  match m with
  | [] => [(k, v)]
  | (k', v') :: rest => if k' == k then (k', v) :: rest else (k', v') :: dictInsert rest k v

/-- Lexicographic comparison of character lists by code point. -/
def charListLt : List Char → List Char → Bool
  | [], [] => false
  | [], _ :: _ => true
  | _ :: _, [] => false
  | a :: as, b :: bs =>
    if a.toNat < b.toNat then true
    else if b.toNat < a.toNat then false
    else charListLt as bs

/-- Python's `<` on strings: lexicographic comparison by Unicode code
point. -/
def strLtB (a b : String) : Bool := charListLt a.data b.data

/-- Insert a string into an ascending (lexicographic) list. -/
def insStr (a : String) : List String → List String
  | [] => [a]
  | b :: bs => if strLtB a b then a :: b :: bs else b :: insStr a bs

/-- Python `sorted` on a list of strings, as an insertion sort.  The program
only ever observes the sorted result through membership, counts and equality
of fully sorted lists, all of which any correct sort agrees on. -/
def sortStr (l : List String) : List String := l.foldr insStr []

/-- Python `sum(m[x] for x in l)` over a dict of rationals: a missing key
raises a `KeyError` carrying that key, modelled as `.error`. -/
def sumLookups (m : Dict ℚ) : List String → Except String ℚ
  | [] => .ok 0
  | c :: cs =>
    match List.lookup c m with
    | none => .error c
    | some v =>
      match sumLookups m cs with
      | .error e => .error e
      | .ok r => .ok (v + r)

/-- `utils.get_countries_for_sector` (utils.py lines 64-83): the label
`"All World"` resolves to the whole universe, else a region key resolves to
its country list, else a known country resolves to the singleton, and any
other label resolves to the empty list. -/
def get_countries_for_sector (sector : String) (region_groupings : Dict (List String))
    (all_countries : List String) : List String :=
  if sector == "All World" then all_countries
  else
    match List.lookup sector region_groupings with
    | some cs => cs
    | none => if all_countries.contains sector then [sector] else []

/-- `utils.validate_portfolio_sectors` (utils.py lines 43-61): split the
portfolio's sector labels, in order, into the valid ones (region key, known
country, or `"All World"`) and the invalid ones. -/
def validate_portfolio_sectors (portfolio : Dict (List String))
    (region_groupings : Dict (List String)) (all_countries : List String) :
    List String × List String :=
  ((portfolio.map Prod.fst).filter fun s =>
      (List.lookup s region_groupings).isSome || all_countries.contains s || s == "All World",
   (portfolio.map Prod.fst).filter fun s =>
      !((List.lookup s region_groupings).isSome || all_countries.contains s || s == "All World"))

/-- `df[df['Country'].isin(countries)]['Weight'].sum()`: sum the Weight column
over the rows of the country-weights frame whose Country is in the given
list. -/
def dfWeightSum (df : Dict ℚ) (countries : List String) : ℚ :=
  ((df.filter (fun row => countries.contains row.1)).map Prod.snd).sum

/-- One iteration of the sector loop of `calculate_portfolio_weights`
(calculate_portfolio_weights.py lines 114-130): the market-cap scaling factor
is computed first (a `KeyError` for an unknown cap fires before the sector
dispatch), then `"All World"` gets the literal total `100.0`, a region gets
its entry of the region-weight series, a country gets its summed frame
weight, and anything else raises. -/
def sector_weight (all_countries : List String) (region_weights : Dict ℚ)
    (country_weights_df : Dict ℚ) (market_cap_pct : Dict ℚ)
    (sector : String) (caps : List String) : Except String ℚ :=
  match sumLookups market_cap_pct caps with
  | .error e => .error e
  | .ok cap_pct =>
    if sector == "All World" then .ok (100 * (cap_pct / 100))
    else
      match List.lookup sector region_weights with
      | some rw => .ok (rw * (cap_pct / 100))
      | none =>
        if all_countries.contains sector then
          .ok (dfWeightSum country_weights_df [sector] * (cap_pct / 100))
        else .error ("Warning: Sector '" ++ sector ++ "' not found in regions or countries.")

/-- `calculate_portfolio_weights` (lines 97-136), reduced to the Weight
column of the returned frame (its Sector and Market Caps columns are the
portfolio itself, verbatim).  The loop raises at the first failing sector. -/
def calculate_portfolio_weights (portfolio : Dict (List String)) (all_countries : List String)
    (region_weights : Dict ℚ) (country_weights_df : Dict ℚ) (market_cap_pct : Dict ℚ) :
    Except String (List ℚ) :=
  match portfolio with
  | [] => .ok []
  | (sector, caps) :: rest =>
    match sector_weight all_countries region_weights country_weights_df market_cap_pct sector caps with
    | .error e => .error e
    | .ok w =>
      match calculate_portfolio_weights rest all_countries region_weights country_weights_df market_cap_pct with
      | .error e => .error e
      | .ok ws => .ok (w :: ws)

/-- The region-weight series built in `main` (lines 269-274): each region maps
to the summed frame weights of its member countries.  (`main` then sorts the
series descending, which changes no lookup and is dropped here.) -/
def build_region_weights (region_groupings : Dict (List String)) (df : Dict ℚ) : Dict ℚ :=
  region_groupings.map (fun g => (g.1, dfWeightSum df g.2))

/-- Mutable state of the accumulation loop of `analyze_world_coverage`:
`cap_coverage` maps a country to the sorted multiset of tiers accumulated for
it, `pct_coverage` to the weighted percentage those tiers represent. -/
structure CovState where
  cap_coverage : Dict (List String)
  pct_coverage : Dict ℚ
deriving DecidableEq

/-- Return value of `analyze_world_coverage` (lines 208-213). -/
structure CoverageReport where
  missing_caps : Dict (List String)
  missing_pct : Dict ℚ
  overlapping_caps : Dict (List String)
  overlapping_pct : Dict ℚ
deriving DecidableEq

instance {α β : Type} [DecidableEq α] [DecidableEq β] : DecidableEq (Except α β) := fun a b =>
  match a, b with
  | .error x, .error y =>
    if h : x = y then isTrue (by rw [h]) else isFalse (fun hc => h (Except.error.inj hc))
  | .ok x, .ok y =>
    if h : x = y then isTrue (by rw [h]) else isFalse (fun hc => h (Except.ok.inj hc))
  | .error _, .ok _ => isFalse (fun hc => Except.noConfusion hc)
  | .ok _, .error _ => isFalse (fun hc => Except.noConfusion hc)

/-- Body of the inner country loop of `analyze_world_coverage` (lines
161-176): a country absent from the weights dict raises; otherwise its
accumulated tier multiset and weighted percentage are created or extended.
The Python code computes `sum((w/100)*mcp[cap] for cap in caps)`, which over
exact rationals equals `w/100` times the plain cap sum. -/
def accumCountry (country_weights market_cap_pct : Dict ℚ) (caps : List String)
    (st : CovState) (country : String) : Except String CovState :=
  match List.lookup country country_weights with
  | none => .error ("Country '" ++ country ++ "' not found in weights data")
  | some w =>
    match sumLookups market_cap_pct caps with
    | .error e => .error e
    | .ok s =>
      match List.lookup country st.cap_coverage with
      | none =>
        .ok ⟨dictInsert st.cap_coverage country (sortStr caps),
             dictInsert st.pct_coverage country (w / 100 * s)⟩
      | some prev =>
        .ok ⟨dictInsert st.cap_coverage country (sortStr (prev ++ caps)),
             dictInsert st.pct_coverage country
               (((List.lookup country st.pct_coverage).getD 0) + w / 100 * s)⟩

/-- The inner country loop of `analyze_world_coverage`, over one sector's
resolved country list. -/
def runCountries (country_weights market_cap_pct : Dict ℚ) (caps : List String) :
    CovState → List String → Except String CovState
  | st, [] => .ok st
  | st, c :: cs =>
    match accumCountry country_weights market_cap_pct caps st c with
    | .error e => .error e
    | .ok st' => runCountries country_weights market_cap_pct caps st' cs

/-- The sector loop of `analyze_world_coverage` (lines 155-176): resolve each
sector, raise on an empty resolution, then accumulate its countries. -/
def runSectors (country_weights market_cap_pct : Dict ℚ)
    (region_groupings : Dict (List String)) (all_countries : List String) :
    CovState → Dict (List String) → Except String CovState
  | st, [] => .ok st
  | st, (sector, caps) :: rest =>
    let countries := get_countries_for_sector sector region_groupings all_countries
    if countries = [] then .error ("Unknown sector '" ++ sector ++ "' - skipping")
    else
      match runCountries country_weights market_cap_pct caps st countries with
      | .error e => .error e
      | .ok st' => runSectors country_weights market_cap_pct region_groupings all_countries st' rest

/-- Tiers of `all_caps` absent from a country's accumulated coverage (line
189; a country never touched reads as the empty coverage inserted at lines
186-187). -/
def missingFor (all_caps : List String) (cap_coverage : Dict (List String))
    (country : String) : List String :=
  all_caps.filter (fun e => !(((List.lookup country cap_coverage).getD []).contains e))

/-- Tiers occurring more than once in a country's accumulated coverage (lines
197-200). -/
def extraFor (all_caps : List String) (cap_coverage : Dict (List String))
    (country : String) : List String :=
  all_caps.filter (fun e => decide (1 < ((List.lookup country cap_coverage).getD []).count e))

/-- The reporting loop of `analyze_world_coverage` (lines 184-206): for every
country of the weights dict, in order, record its missing tiers and their
weighted percentage, then its overlapping tiers and theirs. -/
def runCoverage (country_weights market_cap_pct : Dict ℚ) (all_caps : List String)
    (cap_coverage : Dict (List String)) :
    CoverageReport → Dict ℚ → Except String CoverageReport
  | r, [] => .ok r
  | r, (country, _) :: rest =>
    match
      (if missingFor all_caps cap_coverage country = [] then Except.ok r
       else
         match sumLookups market_cap_pct (missingFor all_caps cap_coverage country) with
         | .error e => .error e
         | .ok s =>
           .ok { r with
                 missing_caps := r.missing_caps ++ [(country, missingFor all_caps cap_coverage country)],
                 missing_pct := r.missing_pct ++
                   [(country, ((List.lookup country country_weights).getD 0) / 100 * s)] }) with
    | .error e => .error e
    | .ok r1 =>
      match
        (if extraFor all_caps cap_coverage country = [] then Except.ok r1
         else
           match sumLookups market_cap_pct (extraFor all_caps cap_coverage country) with
           | .error e => .error e
           | .ok s =>
             .ok { r1 with
                   overlapping_caps := r1.overlapping_caps ++ [(country, extraFor all_caps cap_coverage country)],
                   overlapping_pct := r1.overlapping_pct ++
                     [(country, ((List.lookup country country_weights).getD 0) / 100 * s)] }) with
      | .error e => .error e
      | .ok r2 => runCoverage country_weights market_cap_pct all_caps cap_coverage r2 rest

/-- `analyze_world_coverage` (calculate_portfolio_weights.py lines 138-213):
accumulate the portfolio's coverage, then report missing and overlapping
tiers for every country of the weights dict.  A raised exception is an
`.error`. -/
def analyze_world_coverage (portfolio : Dict (List String)) (country_weights : Dict ℚ)
    (region_groupings : Dict (List String)) (all_countries : List String)
    (market_cap_pct : Dict ℚ) : Except String CoverageReport :=
  match runSectors country_weights market_cap_pct region_groupings all_countries ⟨[], []⟩ portfolio with
  | .error e => .error e
  | .ok st =>
    runCoverage country_weights market_cap_pct (keysOf market_cap_pct) st.cap_coverage
      ⟨[], [], [], []⟩ country_weights

/-- `constants.MARKET_TO_COUNTRY`. -/
def MARKET_TO_COUNTRY : Dict (List String) :=
  [("Developed",
    ["Australia", "Austria", "Belgium", "Canada", "Denmark", "Finland", "France", "Germany",
     "Hong Kong", "Ireland", "Israel", "Italy", "Japan", "Netherlands", "New Zealand", "Norway",
     "Portugal", "Singapore", "Spain", "Sweden", "Switzerland", "United Kingdom", "United States"]),
   ("Emerging",
    ["Brazil", "Chile", "China", "Colombia", "Czech Republic", "Egypt", "Greece", "Hungary",
     "India", "Indonesia", "South Korea", "Kuwait", "Malaysia", "Mexico", "Peru", "Philippines",
     "Poland", "Qatar", "Saudi Arabia", "South Africa", "Taiwan", "Thailand", "Turkey", "UAE"])]

/-- `constants.COUNTRIES`: the developed then the emerging country list. -/
def COUNTRIES : List String :=
  (List.lookup "Developed" MARKET_TO_COUNTRY).getD [] ++ (List.lookup "Emerging" MARKET_TO_COUNTRY).getD []

/-- The sector-resolution chain inside `constants.test_world_coverage` (lines
34-42): region parameter first, then the module-level market map, then a known
country; `none` models the `continue` that silently skips the sector. -/
def twcResolve (region_to_country : Dict (List String)) (sector : String) :
    Option (List String) :=
  match List.lookup sector region_to_country with
  | some cs => some cs
  | none =>
    match List.lookup sector MARKET_TO_COUNTRY with
    | some cs => some cs
    | none => if COUNTRIES.contains sector then some [sector] else none

/-- The accumulation loop of `constants.test_world_coverage` (lines 33-47). -/
def twcAccum (portfolio : Dict (List String)) (region_to_country : Dict (List String)) :
    Dict (List String) :=
  portfolio.foldl (fun cc e =>
    match twcResolve region_to_country e.1 with
    | none => cc
    | some countries =>
      countries.foldl (fun cc2 country =>
        match List.lookup country cc2 with
        | none => dictInsert cc2 country (sortStr e.2)
        | some prev => dictInsert cc2 country (sortStr (prev ++ e.2))) cc) []

/-- `constants.test_world_coverage` (constants.py lines 28-56): `False` on an
empty accumulation, else `True` exactly when every country's accumulated tier
list equals the first one. -/
def test_world_coverage (portfolio : Dict (List String))
    (region_to_country : Dict (List String)) : Bool :=
  match twcAccum portfolio region_to_country with
  | [] => false
  | (_, v) :: rest => rest.all (fun p => p.2 == v)

/-- Total number of times the analyzer accumulates tier `t` for country `c`:
each portfolio entry contributes once per occurrence of `c` in its resolved
country list and per occurrence of `t` in its tier list. -/
def multC (region_groupings : Dict (List String)) (all_countries : List String)
    (portfolio : Dict (List String)) (c t : String) : Nat :=
  (portfolio.map (fun e =>
    (get_countries_for_sector e.1 region_groupings all_countries).count c * e.2.count t)).sum

/-- Dict-lookup sum `Σ over x of l of m[x]` with absent keys contributing 0. -/
def lookupSum (m : Dict ℚ) (l : List String) : ℚ :=
  (l.map (fun c => (List.lookup c m).getD 0)).sum

/-- Multiplicity of tier `t` in the coverage accumulated for country `c`
(0 when `c` has no entry yet). -/
def countCov (cap_coverage : Dict (List String)) (c t : String) : Nat :=
  ((List.lookup c cap_coverage).getD []).count t

/-- The coverage report that the reporting loop appends for a country list
`l`, given the accumulated coverage `cc`: a functional description of
`runCoverage`. -/
def reportFor (cw mcp : Dict ℚ) (all_caps : List String) (cc : Dict (List String))
    (l : Dict ℚ) : CoverageReport :=
  { missing_caps := l.filterMap (fun e =>
      if missingFor all_caps cc e.1 = [] then none
      else some (e.1, missingFor all_caps cc e.1)),
    missing_pct := l.filterMap (fun e =>
      if missingFor all_caps cc e.1 = [] then none
      else some (e.1, (List.lookup e.1 cw).getD 0 / 100 * lookupSum mcp (missingFor all_caps cc e.1))),
    overlapping_caps := l.filterMap (fun e =>
      if extraFor all_caps cc e.1 = [] then none
      else some (e.1, extraFor all_caps cc e.1)),
    overlapping_pct := l.filterMap (fun e =>
      if extraFor all_caps cc e.1 = [] then none
      else some (e.1, (List.lookup e.1 cw).getD 0 / 100 * lookupSum mcp (extraFor all_caps cc e.1))) }

/-- Unfolding lemma for dict lookup in `if`-form, so that closed lookups
reduce by simp. -/
theorem lookup_cons {α : Type} (a k : String) (v : α) (l : List (String × α)) :
    List.lookup a ((k, v) :: l) = if a == k then some v else List.lookup a l := by
  cases h : a == k <;> simp [List.lookup, h]

theorem lookup_dictInsert {α : Type} (m : Dict α) (k c : String) (v : α) :
    List.lookup c (dictInsert m k v) = if c = k then some v else List.lookup c m := by
  induction m with
  | nil => simp [dictInsert, lookup_cons]
  | cons p rest ih =>
    obtain ⟨k', v'⟩ := p
    by_cases h : k' = k
    · subst h
      by_cases hc : c = k' <;> simp [dictInsert, lookup_cons, hc]
    · by_cases hc : c = k' <;>
        simp [dictInsert, lookup_cons, h, hc, ih]

theorem count_insStr (a t : String) (l : List String) :
    (insStr a l).count t = (a :: l).count t := by
  induction l with
  | nil => simp [insStr]
  | cons b bs ih =>
    simp only [insStr]
    by_cases h : strLtB a b
    · rw [if_pos h]
    · rw [if_neg h]
      simp only [List.count_cons, ih]
      omega

theorem count_sortStr (l : List String) (t : String) :
    (sortStr l).count t = l.count t := by
  induction l with
  | nil => rfl
  | cons a as ih =>
    show (insStr a (sortStr as)).count t = _
    rw [count_insStr]
    simp [List.count_cons, ih]

theorem mem_sortStr (l : List String) (t : String) : t ∈ sortStr l ↔ t ∈ l := by
  rw [← List.count_pos_iff, ← List.count_pos_iff, count_sortStr]

theorem contains_sortStr (l : List String) (t : String) :
    (sortStr l).contains t = l.contains t := by
  show List.elem t (sortStr l) = List.elem t l
  rw [List.elem_eq_mem, List.elem_eq_mem]
  exact decide_eq_decide.mpr (mem_sortStr l t)

theorem sumLookups_eq_ok (m : Dict ℚ) (l : List String)
    (h : ∀ x ∈ l, (List.lookup x m).isSome) :
    sumLookups m l = .ok (lookupSum m l) := by
  induction l with
  | nil => simp [sumLookups, lookupSum]
  | cons c cs ih =>
    have hc := h c (by simp)
    obtain ⟨v, hv⟩ := Option.isSome_iff_exists.mp hc
    have ih' := ih (fun x hx => h x (by simp [hx]))
    simp [sumLookups, hv, ih', lookupSum]

theorem sumLookups_ok_elim (m : Dict ℚ) (l : List String) (s : ℚ)
    (h : sumLookups m l = .ok s) :
    (∀ x ∈ l, (List.lookup x m).isSome) ∧ s = lookupSum m l := by
  induction l generalizing s with
  | nil =>
    simp [sumLookups] at h
    simp [lookupSum, h.symm]
  | cons c cs ih =>
    simp only [sumLookups] at h
    cases hv : List.lookup c m with
    | none => rw [hv] at h; exact absurd h (by simp)
    | some v =>
      rw [hv] at h
      cases hs : sumLookups m cs with
      | error e => rw [hs] at h; exact absurd h (by simp)
      | ok r =>
        rw [hs] at h
        have hr := ih r hs
        refine ⟨?_, ?_⟩
        · intro x hx
          rcases List.mem_cons.mp hx with hx | hx
          · rw [hx, hv]; rfl
          · exact hr.1 x hx
        · injection h with h'
          rw [← h', hr.2]
          simp [lookupSum, hv]

theorem accumCountry_ok_elim (cw mcp : Dict ℚ) (caps : List String) (st st' : CovState)
    (c0 : String) (h : accumCountry cw mcp caps st c0 = .ok st') :
    (List.lookup c0 cw).isSome ∧ ∃ s, sumLookups mcp caps = .ok s := by
  unfold accumCountry at h
  cases hw : List.lookup c0 cw with
  | none => rw [hw] at h; exact absurd h (by simp)
  | some w =>
    rw [hw] at h
    cases hs : sumLookups mcp caps with
    | error e => rw [hs] at h; exact absurd h (by simp)
    | ok s => exact ⟨rfl, s, rfl⟩

theorem accumCountry_count (cw mcp : Dict ℚ) (caps : List String) (st st' : CovState)
    (c0 : String) (h : accumCountry cw mcp caps st c0 = .ok st') (c t : String) :
    countCov st'.cap_coverage c t =
      countCov st.cap_coverage c t + (if c = c0 then caps.count t else 0) := by
  unfold accumCountry at h
  cases hw : List.lookup c0 cw with
  | none => rw [hw] at h; exact absurd h (by simp)
  | some w =>
    rw [hw] at h
    cases hs : sumLookups mcp caps with
    | error e => rw [hs] at h; exact absurd h (by simp)
    | ok s =>
      rw [hs] at h
      cases hp : List.lookup c0 st.cap_coverage with
      | none =>
        rw [hp] at h
        injection h with h'
        rw [← h']
        unfold countCov
        rw [lookup_dictInsert]
        by_cases hc : c = c0
        · subst hc; rw [hp]; simp [count_sortStr]
        · simp [hc]
      | some prev =>
        rw [hp] at h
        injection h with h'
        rw [← h']
        unfold countCov
        rw [lookup_dictInsert]
        by_cases hc : c = c0
        · subst hc; rw [hp]
          simp [count_sortStr, List.count_append]
        · simp [hc]

theorem accumCountry_lookup_none (cw mcp : Dict ℚ) (caps : List String) (st st' : CovState)
    (c0 c : String) (h : accumCountry cw mcp caps st c0 = .ok st') (hne : c ≠ c0)
    (h0 : List.lookup c st.cap_coverage = none) :
    List.lookup c st'.cap_coverage = none := by
  unfold accumCountry at h
  cases hw : List.lookup c0 cw with
  | none => rw [hw] at h; exact absurd h (by simp)
  | some w =>
    rw [hw] at h
    cases hs : sumLookups mcp caps with
    | error e => rw [hs] at h; exact absurd h (by simp)
    | ok s =>
      rw [hs] at h
      cases hp : List.lookup c0 st.cap_coverage with
      | none =>
        rw [hp] at h; injection h with h'; rw [← h']
        show List.lookup c (dictInsert st.cap_coverage c0 (sortStr caps)) = none
        rw [lookup_dictInsert, if_neg hne]; exact h0
      | some prev =>
        rw [hp] at h; injection h with h'; rw [← h']
        show List.lookup c (dictInsert st.cap_coverage c0 (sortStr (prev ++ caps))) = none
        rw [lookup_dictInsert, if_neg hne]; exact h0

theorem runCountries_count (cw mcp : Dict ℚ) (caps : List String) (l : List String)
    (st st' : CovState) (h : runCountries cw mcp caps st l = .ok st') (c t : String) :
    countCov st'.cap_coverage c t =
      countCov st.cap_coverage c t + l.count c * caps.count t := by
  induction l generalizing st with
  | nil => unfold runCountries at h; injection h with h'; rw [← h']; simp
  | cons c0 cs ih =>
    unfold runCountries at h
    cases ha : accumCountry cw mcp caps st c0 with
    | error e => rw [ha] at h; exact absurd h (by simp)
    | ok st1 =>
      rw [ha] at h
      have h1 := accumCountry_count cw mcp caps st st1 c0 ha c t
      have h2 := ih st1 h
      rw [h2, h1]
      by_cases hc : c = c0
      · subst hc
        rw [if_pos rfl, List.count_cons_self]
        ring
      · rw [if_neg hc, List.count_cons_of_ne hc]
        ring

theorem runCountries_ok_elim (cw mcp : Dict ℚ) (caps : List String) (l : List String)
    (st st' : CovState) (h : runCountries cw mcp caps st l = .ok st') :
    ∀ c ∈ l, (List.lookup c cw).isSome := by
  induction l generalizing st with
  | nil => intro c hc; exact absurd hc (by simp)
  | cons c0 cs ih =>
    unfold runCountries at h
    cases ha : accumCountry cw mcp caps st c0 with
    | error e => rw [ha] at h; exact absurd h (by simp)
    | ok st1 =>
      rw [ha] at h
      intro c hc
      rcases List.mem_cons.mp hc with hc | hc
      · rw [hc]; exact (accumCountry_ok_elim cw mcp caps st st1 c0 ha).1
      · exact ih st1 h c hc

theorem runCountries_lookup_none (cw mcp : Dict ℚ) (caps : List String) (l : List String)
    (st st' : CovState) (h : runCountries cw mcp caps st l = .ok st') (c : String)
    (hne : c ∉ l) (h0 : List.lookup c st.cap_coverage = none) :
    List.lookup c st'.cap_coverage = none := by
  induction l generalizing st with
  | nil => unfold runCountries at h; injection h with h'; rw [← h']; exact h0
  | cons c0 cs ih =>
    unfold runCountries at h
    cases ha : accumCountry cw mcp caps st c0 with
    | error e => rw [ha] at h; exact absurd h (by simp)
    | ok st1 =>
      rw [ha] at h
      have hne0 : c ≠ c0 := fun hc => hne (by rw [hc]; simp)
      have hne1 : c ∉ cs := fun hc => hne (by simp [hc])
      exact ih st1 h hne1 (accumCountry_lookup_none cw mcp caps st st1 c0 c ha hne0 h0)

theorem runSectors_count (cw mcp : Dict ℚ) (rg : Dict (List String)) (ac : List String)
    (P : Dict (List String)) (st st' : CovState)
    (h : runSectors cw mcp rg ac st P = .ok st') (c t : String) :
    countCov st'.cap_coverage c t = countCov st.cap_coverage c t + multC rg ac P c t := by
  induction P generalizing st with
  | nil => unfold runSectors at h; injection h with h'; rw [← h']; simp [multC]
  | cons e rest ih =>
    obtain ⟨sector, caps⟩ := e
    unfold runSectors at h
    by_cases hc : get_countries_for_sector sector rg ac = []
    · rw [if_pos hc] at h; exact absurd h (by simp)
    · rw [if_neg hc] at h
      cases hr : runCountries cw mcp caps st (get_countries_for_sector sector rg ac) with
      | error e => rw [hr] at h; exact absurd h (by simp)
      | ok st1 =>
        rw [hr] at h
        have h1 := runCountries_count cw mcp caps _ st st1 hr c t
        have h2 := ih st1 h
        rw [h2, h1]
        simp [multC]
        ring

theorem runSectors_ok_elim (cw mcp : Dict ℚ) (rg : Dict (List String)) (ac : List String)
    (P : Dict (List String)) (st st' : CovState)
    (h : runSectors cw mcp rg ac st P = .ok st') :
    ∀ e ∈ P, get_countries_for_sector e.1 rg ac ≠ [] ∧
      (∀ c ∈ get_countries_for_sector e.1 rg ac, (List.lookup c cw).isSome) ∧
      (∃ s, sumLookups mcp e.2 = .ok s) := by
  induction P generalizing st with
  | nil => intro e he; exact absurd he (by simp)
  | cons e0 rest ih =>
    obtain ⟨sector, caps⟩ := e0
    unfold runSectors at h
    by_cases hc : get_countries_for_sector sector rg ac = []
    · rw [if_pos hc] at h; exact absurd h (by simp)
    · rw [if_neg hc] at h
      cases hr : runCountries cw mcp caps st (get_countries_for_sector sector rg ac) with
      | error e => rw [hr] at h; exact absurd h (by simp)
      | ok st1 =>
        rw [hr] at h
        intro e he
        rcases List.mem_cons.mp he with he | he
        · subst he
          refine ⟨hc, runCountries_ok_elim cw mcp caps _ st st1 hr, ?_⟩
          cases hl : get_countries_for_sector sector rg ac with
          | nil => exact absurd hl hc
          | cons c0 cs =>
            rw [hl] at hr
            unfold runCountries at hr
            cases ha : accumCountry cw mcp caps st c0 with
            | error e => rw [ha] at hr; exact absurd hr (by simp)
            | ok st2 => exact (accumCountry_ok_elim cw mcp caps st st2 c0 ha).2
        · exact ih st1 h e he

theorem runSectors_lookup_none (cw mcp : Dict ℚ) (rg : Dict (List String)) (ac : List String)
    (P : Dict (List String)) (st st' : CovState)
    (h : runSectors cw mcp rg ac st P = .ok st') (c : String)
    (hnot : ∀ e ∈ P, c ∉ get_countries_for_sector e.1 rg ac)
    (h0 : List.lookup c st.cap_coverage = none) :
    List.lookup c st'.cap_coverage = none := by
  induction P generalizing st with
  | nil => unfold runSectors at h; injection h with h'; rw [← h']; exact h0
  | cons e0 rest ih =>
    obtain ⟨sector, caps⟩ := e0
    unfold runSectors at h
    by_cases hc : get_countries_for_sector sector rg ac = []
    · rw [if_pos hc] at h; exact absurd h (by simp)
    · rw [if_neg hc] at h
      cases hr : runCountries cw mcp caps st (get_countries_for_sector sector rg ac) with
      | error e => rw [hr] at h; exact absurd h (by simp)
      | ok st1 =>
        rw [hr] at h
        have hn0 : c ∉ get_countries_for_sector sector rg ac := hnot (sector, caps) (by simp)
        exact ih st1 h (fun e he => hnot e (by simp [he]))
          (runCountries_lookup_none cw mcp caps _ st st1 hr c hn0 h0)

theorem lookup_isSome_of_mem_keys {α : Type} (m : Dict α) (x : String)
    (h : x ∈ keysOf m) : (List.lookup x m).isSome := by
  induction m with
  | nil => exact absurd h (by simp [keysOf])
  | cons p rest ih =>
    obtain ⟨k, v⟩ := p
    by_cases hx : x = k
    · subst hx; simp [lookup_cons]
    · have : x ∈ keysOf rest := by
        simp [keysOf] at h ⊢
        tauto
      simpa [lookup_cons, hx] using ih this

theorem runCoverage_eq (cw mcp : Dict ℚ) (all_caps : List String) (cc : Dict (List String))
    (hsub : ∀ x ∈ all_caps, (List.lookup x mcp).isSome) (l : Dict ℚ) :
    ∀ r : CoverageReport,
      runCoverage cw mcp all_caps cc r l = .ok
        { missing_caps := r.missing_caps ++ (reportFor cw mcp all_caps cc l).missing_caps,
          missing_pct := r.missing_pct ++ (reportFor cw mcp all_caps cc l).missing_pct,
          overlapping_caps :=
            r.overlapping_caps ++ (reportFor cw mcp all_caps cc l).overlapping_caps,
          overlapping_pct :=
            r.overlapping_pct ++ (reportFor cw mcp all_caps cc l).overlapping_pct } := by
  induction l with
  | nil => intro r; simp [runCoverage, reportFor]
  | cons e rest ih =>
    intro r
    obtain ⟨country, w⟩ := e
    have hm : sumLookups mcp (missingFor all_caps cc country)
        = .ok (lookupSum mcp (missingFor all_caps cc country)) :=
      sumLookups_eq_ok mcp _ (fun x hx => hsub x (List.mem_of_mem_filter hx))
    have hx : sumLookups mcp (extraFor all_caps cc country)
        = .ok (lookupSum mcp (extraFor all_caps cc country)) :=
      sumLookups_eq_ok mcp _ (fun x hx => hsub x (List.mem_of_mem_filter hx))
    show runCoverage cw mcp all_caps cc r ((country, w) :: rest) = _
    unfold runCoverage
    by_cases h1 : missingFor all_caps cc country = [] <;>
      by_cases h2 : extraFor all_caps cc country = [] <;>
        simp [h1, h2, hm, hx, ih, reportFor, List.append_assoc]

theorem analyze_eq (portfolio : Dict (List String)) (cw : Dict ℚ)
    (rg : Dict (List String)) (ac : List String) (mcp : Dict ℚ) (st : CovState)
    (h : runSectors cw mcp rg ac ⟨[], []⟩ portfolio = .ok st) :
    analyze_world_coverage portfolio cw rg ac mcp
      = .ok (reportFor cw mcp (keysOf mcp) st.cap_coverage cw) := by
  have hr := runCoverage_eq cw mcp (keysOf mcp) st.cap_coverage
    (fun x hx => lookup_isSome_of_mem_keys mcp x hx) cw ⟨[], [], [], []⟩
  unfold analyze_world_coverage
  rw [h]
  show runCoverage cw mcp (keysOf mcp) st.cap_coverage ⟨[], [], [], []⟩ cw = _
  rw [hr]
  simp

theorem missingFor_eq_nil_iff (all_caps : List String) (cc : Dict (List String))
    (c : String) :
    missingFor all_caps cc c = [] ↔ ∀ t ∈ all_caps, 0 < countCov cc c t := by
  unfold missingFor countCov
  rw [List.filter_eq_nil_iff]
  constructor
  · intro h t ht
    have := h t ht
    simp at this
    rw [List.count_pos_iff]
    exact this
  · intro h t ht
    have := h t ht
    rw [List.count_pos_iff] at this
    simp [this]

theorem extraFor_eq_nil_iff (all_caps : List String) (cc : Dict (List String))
    (c : String) :
    extraFor all_caps cc c = [] ↔ ∀ t ∈ all_caps, countCov cc c t ≤ 1 := by
  unfold extraFor countCov
  rw [List.filter_eq_nil_iff]
  constructor
  · intro h t ht
    have := h t ht
    simp at this
    omega
  · intro h t ht
    have := h t ht
    simp
    omega

theorem lookup_eq_none_of_not_mem_keys {α : Type} (m : Dict α) (k : String)
    (h : k ∉ keysOf m) : List.lookup k m = none := by
  induction m with
  | nil => rfl
  | cons p rest ih =>
    obtain ⟨k', v'⟩ := p
    have h1 : k ≠ k' := fun hc => h (by simp [keysOf, hc])
    have h2 : k ∉ keysOf rest := fun hc => h (by simp [keysOf] at hc ⊢; tauto)
    simp [lookup_cons, h1, ih h2]

theorem lookupSum_cons (k : String) (v : ℚ) (rest : Dict ℚ) (l : List String)
    (hk : k ∉ keysOf rest) :
    lookupSum ((k, v) :: rest) l = (l.count k : ℚ) * v + lookupSum rest l := by
  induction l with
  | nil => simp [lookupSum]
  | cons c cs ih =>
    by_cases hc : c = k
    · subst hc
      simp only [lookupSum, List.map_cons, List.sum_cons, lookup_cons] at ih ⊢
      rw [if_pos (by simp), List.count_cons_self, lookup_eq_none_of_not_mem_keys rest c hk] at *
      push_cast
      rw [ih]
      simp
      ring
    · simp only [lookupSum, List.map_cons, List.sum_cons, lookup_cons] at ih ⊢
      rw [if_neg (by simp [hc]), List.count_cons_of_ne (fun hc2 => hc hc2.symm)] at *
      rw [ih]
      ring

theorem lookupSum_eq_weighted (m : Dict ℚ) (l : List String) (h : (keysOf m).Nodup) :
    lookupSum m l = (m.map (fun p => (l.count p.1 : ℚ) * p.2)).sum := by
  induction m with
  | nil => simp [lookupSum]
  | cons p rest ih =>
    obtain ⟨k, v⟩ := p
    have h' : (keysOf rest).Nodup := by
      simp [keysOf] at h
      exact h.2
    have hk : k ∉ keysOf rest := by
      simp [keysOf] at h ⊢
      exact h.1
    rw [lookupSum_cons k v rest l hk, ih h']
    simp

theorem count_eq_one_of_nodup_mem (l : List String) (a : String) (hn : l.Nodup)
    (hm : a ∈ l) : l.count a = 1 := List.count_eq_one_of_mem hn hm

theorem lookupSum_full (m : Dict ℚ) (l : List String) (hm : (keysOf m).Nodup)
    (hl : l.Nodup) (hsub : ∀ k ∈ keysOf m, k ∈ l) :
    lookupSum m l = (m.map Prod.snd).sum := by
  rw [lookupSum_eq_weighted m l hm]
  congr 1
  apply List.map_congr_left
  intro p hp
  have : p.1 ∈ keysOf m := by simp [keysOf]; exact ⟨p.2, hp⟩
  rw [count_eq_one_of_nodup_mem l p.1 hl (hsub p.1 this)]
  simp

theorem dfWeightSum_eq_lookupSum (df : Dict ℚ) (l : List String)
    (hdf : (keysOf df).Nodup) (hl : l.Nodup) :
    dfWeightSum df l = lookupSum df l := by
  induction df with
  | nil =>
    simp [dfWeightSum, lookupSum]
  | cons p rest ih =>
    obtain ⟨k, v⟩ := p
    have h' : (keysOf rest).Nodup := by simp [keysOf] at hdf; exact hdf.2
    have hk : k ∉ keysOf rest := by simp [keysOf] at hdf ⊢; exact hdf.1
    rw [lookupSum_cons k v rest l hk, ← ih h']
    unfold dfWeightSum
    by_cases hc : l.contains k
    · rw [List.filter_cons_of_pos (by simpa using hc)]
      have : l.count k = 1 :=
        count_eq_one_of_nodup_mem l k hl (by simpa [List.elem_iff] using hc)
      simp [this]
    · rw [List.filter_cons_of_neg (by simpa using hc)]
      have : l.count k = 0 := by
        rw [List.count_eq_zero]
        intro hmem
        exact hc (by simpa [List.elem_iff] using hmem)
      simp [this]

theorem sum_map_swap {α β : Type} (l1 : List α) (l2 : List β) (f : α → β → ℚ) :
    (l1.map (fun x => (l2.map (f x)).sum)).sum
      = (l2.map (fun y => (l1.map (fun x => f x y)).sum)).sum := by
  induction l1 with
  | nil => simp
  | cons a as ih =>
    simp only [List.map_cons, List.sum_cons, ih]
    rw [← List.sum_map_add]

theorem lookup_build_region_weights (rg : Dict (List String)) (df : Dict ℚ) (s : String) :
    List.lookup s (build_region_weights rg df)
      = (List.lookup s rg).map (fun g => dfWeightSum df g) := by
  induction rg with
  | nil => rfl
  | cons p rest ih =>
    obtain ⟨k, g⟩ := p
    by_cases hs : s = k
    · simp [build_region_weights, lookup_cons, hs]
    · simp only [build_region_weights, List.map_cons] at ih ⊢
      show List.lookup s ((k, dfWeightSum df g) :: List.map _ rest) = _
      rw [lookup_cons, lookup_cons, if_neg (by simp [hs]), if_neg (by simp [hs])]
      exact ih

theorem beq_string_false (a b : String) (h : a ≠ b) : (a == b) = false := by
  simp [h]

theorem contains_eq_false_of_not_mem (l : List String) (a : String) (h : a ∉ l) :
    l.contains a = false := by
  simp [List.elem_eq_mem, h]

theorem resolver_unknown_eq_nil (s : String) (rg : Dict (List String)) (ac : List String)
    (h1 : s ≠ "All World") (h2 : List.lookup s rg = none) (h3 : s ∉ ac) :
    get_countries_for_sector s rg ac = [] := by
  unfold get_countries_for_sector
  rw [beq_string_false s "All World" h1]
  simp only [Bool.false_eq_true, if_false, h2]
  rw [contains_eq_false_of_not_mem ac s h3]
  simp

theorem dfWeightSum_singleton_zero (df : Dict ℚ) (s : String) (h : ∀ row ∈ df, row.1 ≠ s) :
    dfWeightSum df [s] = 0 := by
  unfold dfWeightSum
  rw [List.filter_eq_nil_iff.mpr]
  · rfl
  · intro row hrow
    simpa using h row hrow

/-- C5: `get_countries_for_sector` dispatches in the fixed order universe
label, taxonomy group key, country: the universe label resolves to the whole
universe, a group key (tried after the universe label) resolves to exactly its
group's country list, and a known country that is not a group key resolves to
the singleton containing it. -/
theorem C5_resolver_dispatch (rg : Dict (List String)) (ac : List String) (s : String) :
    get_countries_for_sector "All World" rg ac = ac ∧
    (s ≠ "All World" → ∀ cs, List.lookup s rg = some cs →
      get_countries_for_sector s rg ac = cs) ∧
    (s ≠ "All World" → List.lookup s rg = none → s ∈ ac →
      get_countries_for_sector s rg ac = [s]) := by
  refine ⟨by simp [get_countries_for_sector], ?_, ?_⟩
  · intro h1 cs h2
    unfold get_countries_for_sector
    rw [beq_string_false s "All World" h1]
    simp [h2]
  · intro h1 h2 h3
    unfold get_countries_for_sector
    rw [beq_string_false s "All World" h1]
    simp only [Bool.false_eq_true, if_false, h2]
    simp [List.elem_eq_mem, h3]

/-- Witness for C5 at the taxonomy of the spec's §8 scenario (with a group
label that shadows a country name in the third clause's contrapositive
role). -/
theorem C5_resolver_dispatch_witness :
    get_countries_for_sector "All World" [("Developed", ["US", "UK"])] ["UK", "US"]
      = ["UK", "US"] ∧
    get_countries_for_sector "Developed" [("Developed", ["US", "UK"])] ["UK", "US"]
      = ["US", "UK"] ∧
    get_countries_for_sector "US" [("Developed", ["US", "UK"])] ["UK", "US"] = ["US"] :=
  ⟨(C5_resolver_dispatch [("Developed", ["US", "UK"])] ["UK", "US"] "x").1,
   (C5_resolver_dispatch [("Developed", ["US", "UK"])] ["UK", "US"] "Developed").2.1
     (by decide) ["US", "UK"] (by decide),
   (C5_resolver_dispatch [("Developed", ["US", "UK"])] ["UK", "US"] "US").2.2
     (by decide) (by decide) (by decide)⟩

/-- C3 counterexample: on an unknown label the resolver does NOT raise - it
returns the empty list (the claim says it raises an `UnknownSectorError`
instead of returning a value such as an empty set). -/
theorem C3_counterexample :
    get_countries_for_sector "Atlantis" [("Developed", ["US", "UK"])] ["UK", "US"] = [] := by
  decide

/-- C3 (amended): for a label that is neither the universe label, nor a group
key, nor a known country, `get_countries_for_sector` returns the empty list
(no error), and it is the callers that raise an error carrying the label:
`calculate_portfolio_weights` raises its unknown-sector message and
`analyze_world_coverage` raises when the resolved list is empty. -/
theorem C3_amended (s : String) (rg : Dict (List String)) (ac : List String)
    (cw mcp df : Dict ℚ) (caps : List String) (P : Dict (List String)) (p : ℚ)
    (h1 : s ≠ "All World") (h2 : List.lookup s rg = none) (h3 : s ∉ ac)
    (hcap : sumLookups mcp caps = .ok p) :
    get_countries_for_sector s rg ac = [] ∧
    calculate_portfolio_weights ((s, caps) :: P) ac (build_region_weights rg df) df mcp
      = .error ("Warning: Sector '" ++ s ++ "' not found in regions or countries.") ∧
    analyze_world_coverage ((s, caps) :: P) cw rg ac mcp
      = .error ("Unknown sector '" ++ s ++ "' - skipping") := by
  have hres := resolver_unknown_eq_nil s rg ac h1 h2 h3
  refine ⟨hres, ?_, ?_⟩
  · unfold calculate_portfolio_weights
    unfold sector_weight
    rw [hcap]
    rw [beq_string_false s "All World" h1]
    rw [lookup_build_region_weights rg df s, h2]
    rw [contains_eq_false_of_not_mem ac s h3]
    simp
  · unfold analyze_world_coverage
    unfold runSectors
    rw [hres]
    simp

/-- Witness for C3 (amended) at a concrete unknown label. -/
theorem C3_amended_witness :
    get_countries_for_sector "Atlantis" [("Developed", ["US", "UK"])] ["UK", "US"] = [] ∧
    calculate_portfolio_weights [("Atlantis", ["Large"])] ["UK", "US"]
        (build_region_weights [("Developed", ["US", "UK"])] [("US", 50), ("UK", 10)])
        [("US", 50), ("UK", 10)] [("Large", 70)]
      = .error "Warning: Sector 'Atlantis' not found in regions or countries." ∧
    analyze_world_coverage [("Atlantis", ["Large"])] [("US", 50), ("UK", 10)]
        [("Developed", ["US", "UK"])] ["UK", "US"] [("Large", 70)]
      = .error "Unknown sector 'Atlantis' - skipping" :=
  C3_amended "Atlantis" [("Developed", ["US", "UK"])] ["UK", "US"]
    [("US", 50), ("UK", 10)] [("Large", 70)] [("US", 50), ("UK", 10)] ["Large"] [] 70
    (by decide) (by decide) (by decide) (by norm_num [sumLookups, lookup_cons])

/-- C4 counterexample: with a benchmark whose per-country weights sum to 50,
the universe sector with the full tier set still reports exactly 100 - the
code uses the literal `100.0`, not the unscaled sum of the per-country
benchmark weights. -/
theorem C4_counterexample :
    sector_weight ["US"] [] [("US", 50)] [("Large", 70), ("Medium", 15), ("Small", 15)]
        "All World" ["Large", "Medium", "Small"] = .ok 100 ∧
    dfWeightSum [("US", 50)] ["US"] = 50 ∧ (50 : ℚ) ≠ 100 := by
  refine ⟨?_, by norm_num [dfWeightSum], by norm_num⟩
  norm_num +decide [sector_weight, sumLookups, lookup_cons]

/-- C4 (amended): for the universe label `"All World"`, `sector_weight`
returns the literal total `100` scaled by the tier fraction - in particular
`100` itself when the tiers sum to `100` - independent of the benchmark
weights. -/
theorem C4_amended (ac : List String) (rws df mcp : Dict ℚ) (caps : List String) (p : ℚ)
    (h : sumLookups mcp caps = .ok p) :
    sector_weight ac rws df mcp "All World" caps = .ok (100 * (p / 100)) := by
  unfold sector_weight
  rw [h]
  simp

/-- Witness for C4 (amended) with the reference tier table. -/
theorem C4_amended_witness :
    sumLookups [("Large", 70), ("Medium", 15), ("Small", 15)] ["Large", "Medium", "Small"]
      = .ok 100 ∧
    sector_weight ["US"] [] [("US", 50)] [("Large", 70), ("Medium", 15), ("Small", 15)]
      "All World" ["Large", "Medium", "Small"] = .ok (100 * (100 / 100)) := by
  have h : sumLookups [("Large", 70), ("Medium", 15), ("Small", 15)]
      ["Large", "Medium", "Small"] = .ok 100 := by
    norm_num +decide [sumLookups, lookup_cons]
  exact ⟨h, C4_amended ["US"] [] [("US", 50)] [("Large", 70), ("Medium", 15), ("Small", 15)]
    ["Large", "Medium", "Small"] 100 h⟩

/-- C2 counterexample: a resolved country absent from the benchmark-weights
mapping makes `analyze_world_coverage` raise (the claim says the weight
computations never signal an error on such inputs and `analyze` succeeds). -/
theorem C2_counterexample :
    analyze_world_coverage [("G", ["Large"])] [] [("G", ["US"])] ["US"] [("Large", 100)]
      = .error "Country 'US' not found in weights data" := by decide

/-- C2 (amended): the weight aggregator (`sector_weight`, hence
`calculate_portfolio_weights`) treats a country absent from the weights frame
as contributing weight 0 and succeeds; `analyze_world_coverage`, however,
raises an error as soon as a resolved country is absent from the
benchmark-weights dict (in the full pipeline, `main` first inserts every
missing country with weight 0, so the guard does not fire there). -/
theorem C2_amended (s s2 c : String) (ac : List String) (rws df cw mcp : Dict ℚ)
    (rg P : Dict (List String)) (caps caps2 rest : List String) (p : ℚ) :
    (s ≠ "All World" → List.lookup s rws = none → s ∈ ac → (∀ row ∈ df, row.1 ≠ s) →
      sumLookups mcp caps = .ok p →
      sector_weight ac rws df mcp s caps = .ok 0) ∧
    (get_countries_for_sector s2 rg ac = c :: rest → List.lookup c cw = none →
      analyze_world_coverage ((s2, caps2) :: P) cw rg ac mcp
        = .error ("Country '" ++ c ++ "' not found in weights data")) := by
  constructor
  · intro h1 h2 h3 h4 hcap
    unfold sector_weight
    rw [hcap, beq_string_false s "All World" h1]
    simp only [Bool.false_eq_true, if_false, h2]
    have hcon : ac.contains s = true := by simp [List.elem_eq_mem, h3]
    rw [if_pos hcon]
    rw [dfWeightSum_singleton_zero df s h4]
    simp
  · intro hres hc
    unfold analyze_world_coverage
    unfold runSectors
    rw [hres]
    rw [if_neg (by simp)]
    unfold runCountries
    unfold accumCountry
    rw [hc]

/-- Witness for C2 (amended): Israel has no row in the weights frame, yet its
sector weight is 0 with no error; the same missing country makes `analyze`
raise. -/
theorem C2_amended_witness :
    sector_weight ["Israel", "US"] [] [("US", 50)] [("Large", 70)] "Israel" ["Large"]
      = .ok 0 ∧
    analyze_world_coverage [("Israel", ["Large"])] [("US", 50)] [] ["Israel", "US"]
        [("Large", 70)]
      = .error "Country 'Israel' not found in weights data" :=
  ⟨(C2_amended "Israel" "Israel" "Israel" ["Israel", "US"] [] [("US", 50)] [("US", 50)]
      [("Large", 70)] [] [] ["Large"] ["Large"] [] 70).1
      (by decide) (by decide) (by decide) (by decide)
      (by norm_num +decide [sumLookups, lookup_cons]),
   (C2_amended "Israel" "Israel" "Israel" ["Israel", "US"] [] [("US", 50)] [("US", 50)]
      [("Large", 70)] [] [] ["Large"] ["Large"] [] 70).2
      (by decide) (by decide)⟩

theorem runSectors_error_of_unresolvable (cw mcp : Dict ℚ) (rg : Dict (List String))
    (ac : List String) (P : Dict (List String)) (e : String × List String)
    (heP : e ∈ P) (hres : get_countries_for_sector e.1 rg ac = []) :
    ∀ st, ∃ msg, runSectors cw mcp rg ac st P = .error msg := by
  induction P with
  | nil => exact absurd heP (by simp)
  | cons e0 rest ih =>
    intro st
    obtain ⟨sector, caps⟩ := e0
    rcases List.mem_cons.mp heP with he | he
    · unfold runSectors
      rw [if_pos (by rw [he] at hres; exact hres)]
      exact ⟨_, rfl⟩
    · by_cases hc : get_countries_for_sector sector rg ac = []
      · unfold runSectors
        rw [if_pos hc]
        exact ⟨_, rfl⟩
      · unfold runSectors
        rw [if_neg hc]
        cases hr : runCountries cw mcp caps st (get_countries_for_sector sector rg ac) with
        | error msg => exact ⟨msg, rfl⟩
        | ok st1 =>
          obtain ⟨msg, hmsg⟩ := ih he st1
          exact ⟨msg, hmsg⟩

/-- C9: a portfolio containing any sector whose resolution is empty makes
`analyze_world_coverage` signal an error and return no coverage report at
all - no partial missing/overlap result is produced. -/
theorem C9_unresolvable_aborts_analyze (P : Dict (List String)) (cw mcp : Dict ℚ)
    (rg : Dict (List String)) (ac : List String)
    (h : ∃ e ∈ P, get_countries_for_sector e.1 rg ac = []) :
    ∃ msg, analyze_world_coverage P cw rg ac mcp = .error msg := by
  obtain ⟨e, heP, hres⟩ := h
  obtain ⟨msg, hmsg⟩ :=
    runSectors_error_of_unresolvable cw mcp rg ac P e heP hres ⟨[], []⟩
  exact ⟨msg, by unfold analyze_world_coverage; rw [hmsg]⟩

/-- Witness for C9: a portfolio with a valid first sector and an unresolvable
second sector yields an error, not a report. -/
theorem C9_unresolvable_aborts_analyze_witness :
    (∃ e ∈ ([("US", ["Large"]), ("Atlantis", ["Large"])] : Dict (List String)),
      get_countries_for_sector e.1 [] ["US"] = []) ∧
    ∃ msg, analyze_world_coverage [("US", ["Large"]), ("Atlantis", ["Large"])]
        [("US", 100)] [] ["US"] [("Large", 100)] = .error msg :=
  ⟨by decide,
   C9_unresolvable_aborts_analyze [("US", ["Large"]), ("Atlantis", ["Large"])]
     [("US", 100)] [("Large", 100)] [] ["US"] (by decide)⟩

/-- C8: on the spec's §8 perfect-coverage scenario the analyzer reports no
missing and no overlapping segments, and the computed sector weights are
exactly 60 for Developed and 40 for Emerging. -/
theorem C8_perfect_scenario :
    analyze_world_coverage
        [("Developed", ["Large", "Medium", "Small"]), ("Emerging", ["Large", "Medium", "Small"])]
        [("US", 50), ("UK", 10), ("China", 40)]
        [("Developed", ["US", "UK"]), ("Emerging", ["China"])]
        ["China", "UK", "US"]
        [("Large", 70), ("Medium", 15), ("Small", 15)]
      = .ok ⟨[], [], [], []⟩ ∧
    calculate_portfolio_weights
        [("Developed", ["Large", "Medium", "Small"]), ("Emerging", ["Large", "Medium", "Small"])]
        ["China", "UK", "US"]
        (build_region_weights [("Developed", ["US", "UK"]), ("Emerging", ["China"])]
          [("US", 50), ("UK", 10), ("China", 40)])
        [("US", 50), ("UK", 10), ("China", 40)]
        [("Large", 70), ("Medium", 15), ("Small", 15)]
      = .ok [60, 40] := by
  constructor
  · decide
  · norm_num +decide [calculate_portfolio_weights, sector_weight, sumLookups,
      build_region_weights, dfWeightSum, lookup_cons]

/-- C10: there is a portfolio with uniform but incomplete tier coverage - an
unresolvable sector plus every country receiving only the `"Large"` tier -
for which `constants.test_world_coverage` returns `True`: the checker only
compares the accumulated tier lists for equality with each other (never with
the full tier set) and silently skips the unresolvable sector instead of
failing. -/
theorem C10_uniform_incomplete_passes :
    test_world_coverage
        [("Atlantis", ["Mega"]), ("Developed", ["Large"]), ("Emerging", ["Large"])] [] = true ∧
    twcResolve [] "Atlantis" = none ∧
    (∀ p ∈ twcAccum
        [("Atlantis", ["Mega"]), ("Developed", ["Large"]), ("Emerging", ["Large"])] [],
      p.2 = ["Large"]) ∧
    ("Small" ∉ (["Large"] : List String)) := by decide

theorem countCov_phase1 (P : Dict (List String)) (cw mcp : Dict ℚ)
    (rg : Dict (List String)) (ac : List String) (st : CovState)
    (h : runSectors cw mcp rg ac ⟨[], []⟩ P = .ok st) (c t : String) :
    countCov st.cap_coverage c t = multC rg ac P c t := by
  have := runSectors_count cw mcp rg ac P ⟨[], []⟩ st h c t
  simpa [countCov] using this

theorem analyze_ok_report (P : Dict (List String)) (cw mcp : Dict ℚ)
    (rg : Dict (List String)) (ac : List String) (r : CoverageReport)
    (h : analyze_world_coverage P cw rg ac mcp = .ok r) :
    ∃ st, runSectors cw mcp rg ac ⟨[], []⟩ P = .ok st ∧
      r = reportFor cw mcp (keysOf mcp) st.cap_coverage cw := by
  cases hrs : runSectors cw mcp rg ac ⟨[], []⟩ P with
  | error e =>
    unfold analyze_world_coverage at h
    rw [hrs] at h
    exact absurd h (by simp)
  | ok st =>
    have := analyze_eq P cw rg ac mcp st hrs
    rw [this] at h
    injection h with h'
    exact ⟨st, rfl, h'.symm⟩

/-- C6: a country of the benchmark-weights dict that no portfolio entry ever
resolves to (whatever its weight, 0 included) is recorded in the missing
mapping with the full tier set; and on the §8 under-coverage scenario the
report is exactly missing Small for US and UK, all three tiers for China, and
no overlap. -/
theorem C6_untouched_country_missing_all :
    (∀ (P : Dict (List String)) (cw mcp : Dict ℚ) (rg : Dict (List String))
       (ac : List String) (c : String) (w : ℚ) (r : CoverageReport),
       analyze_world_coverage P cw rg ac mcp = .ok r →
       (c, w) ∈ cw →
       (∀ e ∈ P, c ∉ get_countries_for_sector e.1 rg ac) →
       mcp ≠ [] →
       (c, keysOf mcp) ∈ r.missing_caps) ∧
    analyze_world_coverage [("Developed", ["Large", "Medium"])]
        [("US", 50), ("UK", 10), ("China", 40)]
        [("Developed", ["US", "UK"]), ("Emerging", ["China"])]
        ["China", "UK", "US"]
        [("Large", 70), ("Medium", 15), ("Small", 15)]
      = .ok { missing_caps :=
                [("US", ["Small"]), ("UK", ["Small"]), ("China", ["Large", "Medium", "Small"])],
              missing_pct := [("US", 15/2), ("UK", 3/2), ("China", 40)],
              overlapping_caps := [], overlapping_pct := [] } := by
  constructor
  · intro P cw mcp rg ac c w r h hmem hnot hne
    obtain ⟨st, hrs, hrep⟩ := analyze_ok_report P cw mcp rg ac r h
    have hnone : List.lookup c st.cap_coverage = none :=
      runSectors_lookup_none cw mcp rg ac P ⟨[], []⟩ st hrs c hnot rfl
    have hmf : missingFor (keysOf mcp) st.cap_coverage c = keysOf mcp := by
      unfold missingFor
      rw [hnone]
      exact List.filter_eq_self.mpr (fun a _ => rfl)
    have hkne : keysOf mcp ≠ [] := by
      simp [keysOf]
      exact hne
    rw [hrep]
    show (c, keysOf mcp) ∈ (reportFor cw mcp (keysOf mcp) st.cap_coverage cw).missing_caps
    unfold reportFor
    apply List.mem_filterMap.mpr
    exact ⟨(c, w), hmem, by simp only [hmf]; rw [if_neg hkne]⟩
  · norm_num +decide [analyze_world_coverage, runSectors, runCountries, accumCountry,
      runCoverage, missingFor, extraFor, get_countries_for_sector, sumLookups, lookup_cons,
      dictInsert, keysOf, sortStr, insStr, strLtB, charListLt]

/-- C7: a tier is in a country's overlap entry exactly when the analyzer
accumulates it more than once for that country; and on the spec's
double-listing scenario (US also inside Developed) the report's overlap entry
for US is the Large tier with weighted percentage 50/100 x 70 = 35. -/
theorem C7_overlap_iff_multiplicity :
    (∀ (P : Dict (List String)) (cw mcp : Dict ℚ) (rg : Dict (List String))
       (ac : List String) (c : String) (w : ℚ) (r : CoverageReport) (t : String),
       analyze_world_coverage P cw rg ac mcp = .ok r →
       (c, w) ∈ cw →
       ((∃ l, (c, l) ∈ r.overlapping_caps ∧ t ∈ l) ↔
         (t ∈ keysOf mcp ∧ 1 < multC rg ac P c t))) ∧
    analyze_world_coverage [("US", ["Large"]), ("Developed", ["Large", "Medium", "Small"])]
        [("US", 50), ("UK", 10)]
        [("Developed", ["US", "UK"])]
        ["UK", "US"]
        [("Large", 70), ("Medium", 15), ("Small", 15)]
      = .ok { missing_caps := [], missing_pct := [],
              overlapping_caps := [("US", ["Large"])],
              overlapping_pct := [("US", 35)] } := by
  constructor
  · intro P cw mcp rg ac c w r t h hmem
    obtain ⟨st, hrs, hrep⟩ := analyze_ok_report P cw mcp rg ac r h
    have hcnt := countCov_phase1 P cw mcp rg ac st hrs c t
    subst hrep
    constructor
    · rintro ⟨l, hl, htl⟩
      unfold reportFor at hl
      obtain ⟨a, haP, hfa⟩ := List.mem_filterMap.mp hl
      by_cases hq : extraFor (keysOf mcp) st.cap_coverage a.1 = []
      · rw [if_pos hq] at hfa; exact absurd hfa (by simp)
      · rw [if_neg hq] at hfa
        injection hfa with hfa
        have hc : a.1 = c := congrArg Prod.fst hfa
        have hlval : l = extraFor (keysOf mcp) st.cap_coverage c := by
          have := congrArg Prod.snd hfa
          rw [← hc]
          exact this.symm
        rw [hlval] at htl
        unfold extraFor at htl
        have := List.mem_filter.mp htl
        refine ⟨this.1, ?_⟩
        rw [← hcnt]
        exact of_decide_eq_true this.2
    · rintro ⟨htk, hgt⟩
      have htex : t ∈ extraFor (keysOf mcp) st.cap_coverage c := by
        unfold extraFor
        apply List.mem_filter.mpr
        refine ⟨htk, ?_⟩
        apply decide_eq_true
        unfold countCov at hcnt
        rw [hcnt]
        exact hgt
      refine ⟨extraFor (keysOf mcp) st.cap_coverage c, ?_, htex⟩
      unfold reportFor
      apply List.mem_filterMap.mpr
      exact ⟨(c, w), hmem, by rw [if_neg (List.ne_nil_of_mem htex)]⟩
  · norm_num +decide [analyze_world_coverage, runSectors, runCountries, accumCountry,
      runCoverage, missingFor, extraFor, get_countries_for_sector, sumLookups, lookup_cons,
      dictInsert, keysOf, sortStr, insStr, strLtB, charListLt]

/-- Witness for C6: China, never referenced by the §8 under-coverage
portfolio, is recorded missing with the full tier set. -/
theorem C6_untouched_country_missing_all_witness :
    ("China", keysOf [("Large", (70 : ℚ)), ("Medium", 15), ("Small", 15)]) ∈
      ({ missing_caps :=
           [("US", ["Small"]), ("UK", ["Small"]), ("China", ["Large", "Medium", "Small"])],
         missing_pct := [("US", 15/2), ("UK", 3/2), ("China", 40)],
         overlapping_caps := [], overlapping_pct := [] } : CoverageReport).missing_caps :=
  C6_untouched_country_missing_all.1
    [("Developed", ["Large", "Medium"])]
    [("US", 50), ("UK", 10), ("China", 40)]
    [("Large", 70), ("Medium", 15), ("Small", 15)]
    [("Developed", ["US", "UK"]), ("Emerging", ["China"])]
    ["China", "UK", "US"]
    "China" 40 _
    C6_untouched_country_missing_all.2
    (by decide) (by decide) (by decide)

/-- Witness for C7: the double-listed Large tier for US is in US's overlap
entry. -/
theorem C7_overlap_iff_multiplicity_witness :
    ∃ l, ("US", l) ∈
        ({ missing_caps := [], missing_pct := [],
           overlapping_caps := [("US", ["Large"])],
           overlapping_pct := [("US", 35)] } : CoverageReport).overlapping_caps ∧
      "Large" ∈ l :=
  (C7_overlap_iff_multiplicity.1
    [("US", ["Large"]), ("Developed", ["Large", "Medium", "Small"])]
    [("US", 50), ("UK", 10)]
    [("Large", 70), ("Medium", 15), ("Small", 15)]
    [("Developed", ["US", "UK"])]
    ["UK", "US"]
    "US" 50 _ "Large"
    C7_overlap_iff_multiplicity.2
    (by decide)).mpr ⟨by decide, by decide⟩

/-- C1 counterexample: with two equal-weight countries, two equal tiers, and a
portfolio whose US overlap exactly cancels its UK gap, the summed sector
weights equal the universe weight 100 while coverage is NOT perfect - the
claimed equivalence fails in the direction "sum correct implies coverage
perfect".  All the data-model invariants hold at this input: unique keys,
tier percentages summing to 100, benchmark weights summing to 100, groups
drawn without duplicates from the universe, and a duplicate-free universe. -/
theorem C1_counterexample :
    (keysOf [("L", (50 : ℚ)), ("S", 50)]).Nodup ∧
    ([("L", (50 : ℚ)), ("S", 50)].map Prod.snd).sum = 100 ∧
    (keysOf [("US", (50 : ℚ)), ("UK", 50)]).Nodup ∧
    ([("US", (50 : ℚ)), ("UK", 50)].map Prod.snd).sum = 100 ∧
    (∀ g ∈ ([("G", ["US", "UK"])] : Dict (List String)),
      g.2.Nodup ∧ ∀ c ∈ g.2, c ∈ (["UK", "US"] : List String)) ∧
    (["UK", "US"] : List String).Nodup ∧
    calculate_portfolio_weights [("US", ["L", "S"]), ("G", ["S"])] ["UK", "US"]
        (build_region_weights [("G", ["US", "UK"])] [("US", 50), ("UK", 50)])
        [("US", 50), ("UK", 50)] [("L", 50), ("S", 50)]
      = .ok [50, 50] ∧
    ((50 : ℚ) + 50 = 100) ∧
    analyze_world_coverage [("US", ["L", "S"]), ("G", ["S"])] [("US", 50), ("UK", 50)]
        [("G", ["US", "UK"])] ["UK", "US"] [("L", 50), ("S", 50)]
      = .ok { missing_caps := [("UK", ["L"])], missing_pct := [("UK", 25)],
              overlapping_caps := [("US", ["S"])], overlapping_pct := [("US", 25)] } := by
  refine ⟨by decide, by norm_num [keysOf], by decide, by norm_num [keysOf], by decide,
    by decide, ?_, by norm_num, ?_⟩
  · norm_num +decide [calculate_portfolio_weights, sector_weight, sumLookups,
      build_region_weights, dfWeightSum, lookup_cons]
  · norm_num +decide [analyze_world_coverage, runSectors, runCountries, accumCountry,
      runCoverage, missingFor, extraFor, get_countries_for_sector, sumLookups, lookup_cons,
      dictInsert, keysOf, sortStr, insStr, strLtB, charListLt]

theorem mem_of_lookup_eq_some {α : Type} (m : Dict α) (k : String) (v : α)
    (h : List.lookup k m = some v) : (k, v) ∈ m := by
  induction m with
  | nil => exact absurd h (by simp)
  | cons p rest ih =>
    obtain ⟨k', v'⟩ := p
    rw [lookup_cons] at h
    by_cases hk : k = k'
    · rw [if_pos (by simp [hk])] at h
      injection h with h'
      simp [hk, h'.symm]
    · rw [if_neg (by simp [hk])] at h
      simp [ih h]

theorem resolver_subset (rg : Dict (List String)) (ac : List String) (s : String)
    (hrg : ∀ g ∈ rg, ∀ c ∈ g.2, c ∈ ac) :
    ∀ c ∈ get_countries_for_sector s rg ac, c ∈ ac := by
  intro c hc
  unfold get_countries_for_sector at hc
  by_cases hs : (s == "All World") = true
  · rw [if_pos hs] at hc; exact hc
  · rw [if_neg hs] at hc
    cases hl : List.lookup s rg with
    | some g =>
      rw [hl] at hc
      exact hrg (s, g) (mem_of_lookup_eq_some rg s g hl) c hc
    | none =>
      rw [hl] at hc
      by_cases hmem : ac.contains s = true
      · rw [if_pos hmem] at hc
        rcases List.mem_singleton.mp hc with rfl
        simpa [List.elem_eq_mem] using hmem
      · rw [if_neg hmem] at hc
        exact absurd hc (by simp)

theorem calc_eq_map (P : Dict (List String)) (ac : List String) (rws df mcp : Dict ℚ)
    (f : String × List String → ℚ)
    (hA : ∀ e ∈ P, sector_weight ac rws df mcp e.1 e.2 = .ok (f e)) :
    calculate_portfolio_weights P ac rws df mcp = .ok (P.map f) := by
  induction P with
  | nil => rfl
  | cons e rest ih =>
    obtain ⟨sector, caps⟩ := e
    unfold calculate_portfolio_weights
    rw [hA (sector, caps) (by simp)]
    rw [ih (fun e he => hA e (by simp [he]))]
    rfl

theorem sum_map_ne_zero_exists {α : Type} (l : List α) (f : α → Nat)
    (h : (l.map f).sum ≠ 0) : ∃ x ∈ l, f x ≠ 0 := by
  by_contra hc
  push_neg at hc
  exact h (by
    apply List.sum_eq_zero
    intro y hy
    obtain ⟨x, hx, hfx⟩ := List.mem_map.mp hy
    rw [← hfx]
    exact hc x hx)

/-- Perfect coverage means every benchmark country accumulates every tier
exactly once. -/
theorem perfect_multC_one (P : Dict (List String)) (cw mcp : Dict ℚ)
    (rg : Dict (List String)) (ac : List String) (st : CovState)
    (hrs : runSectors cw mcp rg ac ⟨[], []⟩ P = .ok st)
    (hmiss : (reportFor cw mcp (keysOf mcp) st.cap_coverage cw).missing_caps = [])
    (hover : (reportFor cw mcp (keysOf mcp) st.cap_coverage cw).overlapping_caps = []) :
    ∀ c ∈ keysOf cw, ∀ t ∈ keysOf mcp, multC rg ac P c t = 1 := by
  intro c hc t ht
  unfold reportFor at hmiss hover
  rw [List.filterMap_eq_nil_iff] at hmiss hover
  obtain ⟨p, hp, hp1⟩ := List.mem_map.mp hc
  have hm := hmiss p hp
  have ho := hover p hp
  have hm' : missingFor (keysOf mcp) st.cap_coverage p.1 = [] := by
    by_contra hne
    rw [if_neg hne] at hm
    exact absurd hm (by simp)
  have ho' : extraFor (keysOf mcp) st.cap_coverage p.1 = [] := by
    by_contra hne
    rw [if_neg hne] at ho
    exact absurd ho (by simp)
  have h1 := (missingFor_eq_nil_iff (keysOf mcp) st.cap_coverage p.1).mp hm' t ht
  have h2 := (extraFor_eq_nil_iff (keysOf mcp) st.cap_coverage p.1).mp ho' t ht
  have hcnt := countCov_phase1 P cw mcp rg ac st hrs p.1 t
  rw [hcnt] at h1 h2
  rw [← hp1]
  omega

/-- Value computed by `sector_weight` for a sector the analyzer accepted: the
literal 100 for the universe label, otherwise the summed looked-up weight of
its resolved countries, scaled by the tier fraction. -/
theorem sector_weight_value (rg : Dict (List String)) (ac : List String)
    (cw mcp : Dict ℚ) (s : String) (caps : List String)
    (hcwN : (keysOf cw).Nodup)
    (hrgN : ∀ g ∈ rg, g.2.Nodup)
    (hres : get_countries_for_sector s rg ac ≠ [])
    (hcap : sumLookups mcp caps = .ok (lookupSum mcp caps)) :
    sector_weight ac (build_region_weights rg cw) cw mcp s caps
      = .ok ((if s = "All World" then 100
              else lookupSum cw (get_countries_for_sector s rg ac))
             * (lookupSum mcp caps / 100)) := by
  by_cases hs : s = "All World"
  · subst hs
    simp [sector_weight, hcap]
  · have hb : (s == "All World") = false := beq_string_false s "All World" hs
    cases hl : List.lookup s rg with
    | some g =>
      have hresg : get_countries_for_sector s rg ac = g := by
        unfold get_countries_for_sector
        rw [hb]
        simp [hl]
      simp only [sector_weight, hcap, hb, Bool.false_eq_true, if_false,
        lookup_build_region_weights, hl, Option.map_some', if_neg hs, hresg]
      rw [dfWeightSum_eq_lookupSum cw g hcwN (hrgN (s, g) (mem_of_lookup_eq_some rg s g hl))]
    | none =>
      have hresc : get_countries_for_sector s rg ac
          = if ac.contains s = true then [s] else [] := by
        unfold get_countries_for_sector
        rw [hb]
        simp [hl]
      by_cases hin : ac.contains s = true
      · have hres2 : get_countries_for_sector s rg ac = [s] := by
          rw [hresc, if_pos hin]
        simp only [sector_weight, hcap, hb, Bool.false_eq_true, if_false,
          lookup_build_region_weights, hl, Option.map_none', if_pos hin, if_neg hs, hres2]
        rw [dfWeightSum_eq_lookupSum cw [s] hcwN (by simp)]
      · exact absurd (by rw [hresc, if_neg hin]) hres

theorem sum_mul_sum {α β : Type} (l1 : List α) (l2 : List β) (f : α → ℚ) (g : β → ℚ) :
    (l1.map f).sum * (l2.map g).sum
      = (l1.map (fun x => (l2.map (fun y => f x * g y)).sum)).sum := by
  rw [← List.sum_map_mul_right]
  congr 1
  apply List.map_congr_left
  intro x _
  rw [← List.sum_map_mul_left]

theorem sum_map_div {α : Type} (l : List α) (f : α → ℚ) (c : ℚ) :
    (l.map (fun x => f x / c)).sum = (l.map f).sum / c := by
  induction l with
  | nil => simp
  | cons a as ih =>
    simp only [List.map_cons, List.sum_cons, ih]
    rw [add_div]

theorem cast_sum_map {α : Type} (l : List α) (f : α → ℕ) :
    (l.map (fun x => (f x : ℚ))).sum = ((l.map f).sum : ℚ) := by
  induction l with
  | nil => simp
  | cons a as ih => simp [ih]

/-- Under perfect coverage the summed sector weights, written through the
resolved-country weight sums, equal exactly 100. -/
theorem perfect_weight_sum (P : Dict (List String)) (cw mcp : Dict ℚ)
    (rg : Dict (List String)) (ac : List String)
    (hcwN : (keysOf cw).Nodup) (hmcpN : (keysOf mcp).Nodup)
    (hcwS : (cw.map Prod.snd).sum = 100) (hmcpS : (mcp.map Prod.snd).sum = 100)
    (hone : ∀ c ∈ keysOf cw, ∀ t ∈ keysOf mcp, multC rg ac P c t = 1) :
    (P.map (fun e => lookupSum cw (get_countries_for_sector e.1 rg ac)
        * (lookupSum mcp e.2 / 100))).sum = 100 := by
  have step1 : (P.map (fun e => lookupSum cw (get_countries_for_sector e.1 rg ac)
      * (lookupSum mcp e.2 / 100))).sum
      = (P.map (fun e => lookupSum cw (get_countries_for_sector e.1 rg ac)
          * lookupSum mcp e.2 / 100)).sum := by
    congr 1
    apply List.map_congr_left
    intro e _
    rw [mul_div_assoc]
  rw [step1, sum_map_div]
  have step2 : (P.map (fun e => lookupSum cw (get_countries_for_sector e.1 rg ac)
      * lookupSum mcp e.2)).sum
      = (P.map (fun e => (cw.map (fun p =>
          (mcp.map (fun q => (((get_countries_for_sector e.1 rg ac).count p.1 : ℚ) * p.2)
            * ((e.2.count q.1 : ℚ) * q.2))).sum)).sum)).sum := by
    congr 1
    apply List.map_congr_left
    intro e _
    rw [lookupSum_eq_weighted cw _ hcwN, lookupSum_eq_weighted mcp _ hmcpN]
    rw [sum_mul_sum]
  rw [step2, sum_map_swap]
  have step3 : (cw.map (fun p => (P.map (fun e =>
      (mcp.map (fun q => (((get_countries_for_sector e.1 rg ac).count p.1 : ℚ) * p.2)
        * ((e.2.count q.1 : ℚ) * q.2))).sum)).sum)).sum
      = (cw.map (fun p => (mcp.map (fun q => (P.map (fun e =>
          (((get_countries_for_sector e.1 rg ac).count p.1 : ℚ) * p.2)
            * ((e.2.count q.1 : ℚ) * q.2))).sum)).sum)).sum := by
    congr 1
    apply List.map_congr_left
    intro p _
    rw [sum_map_swap]
  rw [step3]
  have step4 : ∀ p ∈ cw, ∀ q ∈ mcp,
      (P.map (fun e => (((get_countries_for_sector e.1 rg ac).count p.1 : ℚ) * p.2)
        * ((e.2.count q.1 : ℚ) * q.2))).sum = p.2 * q.2 := by
    intro p hp q hq
    have hcast : (P.map (fun e => (((get_countries_for_sector e.1 rg ac).count p.1 : ℚ) * p.2)
        * ((e.2.count q.1 : ℚ) * q.2)))
        = (P.map (fun e => (((get_countries_for_sector e.1 rg ac).count p.1
            * e.2.count q.1 : ℕ) : ℚ) * (p.2 * q.2))) := by
      apply List.map_congr_left
      intro e _
      push_cast
      ring
    rw [hcast, List.sum_map_mul_right]
    have hmult : ((P.map (fun e => (((get_countries_for_sector e.1 rg ac).count p.1
        * e.2.count q.1 : ℕ) : ℚ))).sum) = ((multC rg ac P p.1 q.1 : ℕ) : ℚ) := by
      unfold multC
      exact cast_sum_map P
        (fun e => (get_countries_for_sector e.1 rg ac).count p.1 * e.2.count q.1)
    rw [hmult]
    rw [hone p.1 (by simp [keysOf]; exact ⟨p.2, hp⟩) q.1 (by simp [keysOf]; exact ⟨q.2, hq⟩)]
    simp
  have step5 : (cw.map (fun p => (mcp.map (fun q => (P.map (fun e =>
      (((get_countries_for_sector e.1 rg ac).count p.1 : ℚ) * p.2)
        * ((e.2.count q.1 : ℚ) * q.2))).sum)).sum)).sum
      = (cw.map (fun p => (mcp.map (fun q => p.2 * q.2)).sum)).sum := by
    congr 1
    apply List.map_congr_left
    intro p hp
    congr 1
    apply List.map_congr_left
    intro q hq
    exact step4 p hp q hq
  rw [step5]
  have step6 : (cw.map (fun p => (mcp.map (fun q => p.2 * q.2)).sum)).sum
      = (cw.map (fun p => p.2 * 100)).sum := by
    congr 1
    apply List.map_congr_left
    intro p _
    rw [List.sum_map_mul_left]
    have : (mcp.map (fun q => q.2)).sum = 100 := hmcpS
    rw [this]
  rw [step6, List.sum_map_mul_right]
  have : (cw.map (fun p => p.2)).sum = 100 := hcwS
  rw [this]
  norm_num

/-- C1 (amended): under the stated data-model invariants (unique dict keys,
tier percentages summing to 100, benchmark weights summing to 100, groups
drawn without duplicates from the duplicate-free universe), a valid portfolio
whose coverage report is perfect (no missing, no overlap) has its summed
sector weights equal to the universe weight, exactly 100.  Only this
direction of the claimed equivalence holds: the converse fails because a
missing segment and an overlapping segment of equal weighted percentage
cancel in the sum (see the counterexample). -/
theorem C1_amended (P : Dict (List String)) (cw mcp : Dict ℚ)
    (rg : Dict (List String)) (ac : List String) (r : CoverageReport)
    (hmcpN : (keysOf mcp).Nodup) (hmcpS : (mcp.map Prod.snd).sum = 100)
    (hcwN : (keysOf cw).Nodup) (hcwS : (cw.map Prod.snd).sum = 100)
    (hrg : ∀ g ∈ rg, g.2.Nodup ∧ ∀ c ∈ g.2, c ∈ ac)
    (hac : ac.Nodup)
    (hok : analyze_world_coverage P cw rg ac mcp = .ok r)
    (hmiss : r.missing_caps = []) (hover : r.overlapping_caps = []) :
    calculate_portfolio_weights P ac (build_region_weights rg cw) cw mcp
      = .ok (P.map (fun e => (if e.1 = "All World" then 100
          else lookupSum cw (get_countries_for_sector e.1 rg ac))
          * (lookupSum mcp e.2 / 100))) ∧
    (P.map (fun e => (if e.1 = "All World" then 100
        else lookupSum cw (get_countries_for_sector e.1 rg ac))
        * (lookupSum mcp e.2 / 100))).sum = 100 := by
  obtain ⟨st, hrs, hrep⟩ := analyze_ok_report P cw mcp rg ac r hok
  rw [hrep] at hmiss hover
  have hone : ∀ c ∈ keysOf cw, ∀ t ∈ keysOf mcp, multC rg ac P c t = 1 :=
    perfect_multC_one P cw mcp rg ac st hrs hmiss hover
  have hent := runSectors_ok_elim cw mcp rg ac P ⟨[], []⟩ st hrs
  have hcaps : ∀ e ∈ P, sumLookups mcp e.2 = .ok (lookupSum mcp e.2) := by
    intro e he
    obtain ⟨-, -, s, hsum⟩ := hent e he
    exact sumLookups_eq_ok mcp e.2 (sumLookups_ok_elim mcp e.2 s hsum).1
  have hmcpne : mcp ≠ [] := by
    intro hmcp
    rw [hmcp] at hmcpS
    simp at hmcpS
  obtain ⟨q0, hq0⟩ := List.exists_mem_of_ne_nil mcp hmcpne
  have hsubac : ∀ c ∈ keysOf cw, c ∈ ac := by
    intro c hc
    have h1 := hone c hc q0.1 (by simp [keysOf]; exact ⟨q0.2, hq0⟩)
    have h2 : multC rg ac P c q0.1 ≠ 0 := by rw [h1]; exact one_ne_zero
    have h2' : (P.map (fun e => (get_countries_for_sector e.1 rg ac).count c
        * e.2.count q0.1)).sum ≠ 0 := by
      unfold multC at h2
      exact h2
    obtain ⟨e, heP, hne⟩ := sum_map_ne_zero_exists P _ h2'
    have hcnt : (get_countries_for_sector e.1 rg ac).count c ≠ 0 :=
      fun h0 => hne (by rw [h0, Nat.zero_mul])
    have hcmem : c ∈ get_countries_for_sector e.1 rg ac :=
      List.count_pos_iff.mp (Nat.pos_of_ne_zero hcnt)
    exact resolver_subset rg ac e.1 (fun g hg => (hrg g hg).2) c hcmem
  have hacsum : lookupSum cw ac = 100 := by
    rw [lookupSum_full cw ac hcwN hac hsubac, hcwS]
  have hval : ∀ e ∈ P, sector_weight ac (build_region_weights rg cw) cw mcp e.1 e.2
      = .ok ((if e.1 = "All World" then 100
          else lookupSum cw (get_countries_for_sector e.1 rg ac))
          * (lookupSum mcp e.2 / 100)) := by
    intro e he
    exact sector_weight_value rg ac cw mcp e.1 e.2 hcwN (fun g hg => (hrg g hg).1)
      (hent e he).1 (hcaps e he)
  refine ⟨calc_eq_map P ac (build_region_weights rg cw) cw mcp _ hval, ?_⟩
  have hrepl : (P.map (fun e => (if e.1 = "All World" then 100
      else lookupSum cw (get_countries_for_sector e.1 rg ac)) * (lookupSum mcp e.2 / 100)))
      = (P.map (fun e => lookupSum cw (get_countries_for_sector e.1 rg ac)
          * (lookupSum mcp e.2 / 100))) := by
    apply List.map_congr_left
    intro e _
    by_cases hAW : e.1 = "All World"
    · rw [if_pos hAW]
      have hacres : get_countries_for_sector e.1 rg ac = ac := by
        unfold get_countries_for_sector
        rw [if_pos (by simp [hAW])]
      rw [hacres, hacsum]
    · rw [if_neg hAW]
  rw [hrepl]
  exact perfect_weight_sum P cw mcp rg ac hcwN hmcpN hcwS hmcpS hone

/-- Witness for C1 (amended) at the §8 perfect-coverage scenario. -/
theorem C1_amended_witness :
    calculate_portfolio_weights
        [("Developed", ["Large", "Medium", "Small"]), ("Emerging", ["Large", "Medium", "Small"])]
        ["China", "UK", "US"]
        (build_region_weights [("Developed", ["US", "UK"]), ("Emerging", ["China"])]
          [("US", 50), ("UK", 10), ("China", 40)])
        [("US", 50), ("UK", 10), ("China", 40)]
        [("Large", 70), ("Medium", 15), ("Small", 15)]
      = .ok (([("Developed", ["Large", "Medium", "Small"]),
              ("Emerging", ["Large", "Medium", "Small"])] : Dict (List String)).map
          (fun e => (if e.1 = "All World" then 100
              else lookupSum [("US", 50), ("UK", 10), ("China", 40)]
                (get_countries_for_sector e.1
                  [("Developed", ["US", "UK"]), ("Emerging", ["China"])] ["China", "UK", "US"]))
            * (lookupSum [("Large", 70), ("Medium", 15), ("Small", 15)] e.2 / 100))) ∧
    (([("Developed", ["Large", "Medium", "Small"]),
       ("Emerging", ["Large", "Medium", "Small"])] : Dict (List String)).map
        (fun e => (if e.1 = "All World" then 100
            else lookupSum [("US", 50), ("UK", 10), ("China", 40)]
              (get_countries_for_sector e.1
                [("Developed", ["US", "UK"]), ("Emerging", ["China"])] ["China", "UK", "US"]))
          * (lookupSum [("Large", 70), ("Medium", 15), ("Small", 15)] e.2 / 100))).sum = 100 :=
  C1_amended
    [("Developed", ["Large", "Medium", "Small"]), ("Emerging", ["Large", "Medium", "Small"])]
    [("US", 50), ("UK", 10), ("China", 40)]
    [("Large", 70), ("Medium", 15), ("Small", 15)]
    [("Developed", ["US", "UK"]), ("Emerging", ["China"])]
    ["China", "UK", "US"]
    ⟨[], [], [], []⟩
    (by decide) (by norm_num [keysOf]) (by decide) (by norm_num [keysOf])
    (by decide) (by decide) (by decide) rfl rfl
